import Mathlib

/-!
Verification development for the Ising-model simulation engine of
`src/assets/js/Working_Ising.jsx` (personal homepage repository).

The JavaScript source is shallowly embedded: JS numbers are modelled by `ℚ`
(exact arithmetic), spins by rational values `±1`, and the two sources of
randomness of a Metropolis attempt — the chosen site and the outcome of the
comparison `Math.random() < Math.exp(-deltaE / temperature)` — are supplied
by an oracle `ℕ → Fin n × Bool`.  The real-valued acceptance condition
itself is stated separately as the proposition `metropolisAccept`.
-/

namespace Ising

/-- Shallow embedding of the `IsingModel` class state (constructor fields
`adjacencyMatrix`, `J`, `state`, `energy`).  `numNodes` is the type index
`n`.  Spins are stored as rationals (the source stores JS numbers `±1`). -/
structure IsingModel (n : ℕ) where
  adj : Fin n → Fin n → ℚ
  J : ℚ
  state : Fin n → ℚ
  energy : ℚ

/-- `verifyAndComputeNeighbors`: the neighbor list of node `i` holds exactly
the `j` with `i ≠ j` (self-connections skipped) and `adjacencyMatrix[i][j] ≠ 0`. -/
def neighborFinset {n : ℕ} (m : IsingModel n) (i : Fin n) : Finset (Fin n) :=
  Finset.univ.filter (fun j => j ≠ i ∧ m.adj i j ≠ 0)

/-- `calculateDeltaEnergy(siteIndex)`: `-2 * J * spin * Σ_{j ∈ N(site)} w(site,j) * s_j`. -/
def calculateDeltaEnergy {n : ℕ} (m : IsingModel n) (site : Fin n) : ℚ :=
  -2 * m.J * m.state site * ∑ j in neighborFinset m site, m.adj site j * m.state j

/-- `calculateTotalEnergy()`: `Σ_i Σ_{j ∈ N(i)} -0.5 * J * s_i * s_j * w(i,j)`. -/
def calculateTotalEnergy {n : ℕ} (m : IsingModel n) : ℚ :=
  ∑ i, ∑ j in neighborFinset m i, -(1/2) * m.J * m.state i * m.state j * m.adj i j

/-- One iteration of the loop body of `simulationSteps`: pick a site, compute
`deltaE`, and flip when `deltaE <= 0 || Math.random() < Math.exp(-deltaE/T)`.
The boolean component of the move is the oracle for the random comparison. -/
def metropolisAttempt {n : ℕ} (m : IsingModel n) (mv : Fin n × Bool) : IsingModel n :=
  let dE := calculateDeltaEnergy m mv.1
  if dE ≤ 0 ∨ mv.2 = true then
    { m with state := Function.update m.state mv.1 (-(m.state mv.1)),
             energy := m.energy + dE }
  else m

/-- `simulationSteps(temperature, nSteps)`: `totalAttempts = nSteps * numNodes`
Metropolis attempts, drawing the `k`-th attempt's randomness from `o k`.
(The temperature enters only through the oracled comparison.) -/
def simulationSteps {n : ℕ} (m : IsingModel n) (nSteps : ℕ) (o : ℕ → Fin n × Bool) :
    IsingModel n :=
  (List.range (nSteps * n)).foldl (fun mm k => metropolisAttempt mm (o k)) m

/-- `calculateMagnetization()`: mean spin value. -/
def calculateMagnetization {n : ℕ} (m : IsingModel n) : ℚ :=
  (∑ i, m.state i) / n

/-- `calculateAbsoluteMagnetization()`. -/
def calculateAbsoluteMagnetization {n : ℕ} (m : IsingModel n) : ℚ :=
  |calculateMagnetization m|

/-- `setAllSpins(value)` (component helper): overwrite every spin with
`value` and recompute the cached energy from scratch. -/
def setAllSpins {n : ℕ} (m : IsingModel n) (value : ℚ) : IsingModel n :=
  let m' := { m with state := fun _ => value }
  { m' with energy := calculateTotalEnergy m' }

/-- The Metropolis acceptance condition of line 149 of the source, over exact
reals: `deltaE <= 0 || u < Math.exp(-deltaE / temperature)`. -/
def metropolisAccept (dE : ℚ) (T u : ℝ) : Prop :=
  dE ≤ 0 ∨ u < Real.exp (-(dE : ℝ) / T)

end Ising

section C1Setup

open Ising

/-- The 2-node graph with unit coupling both ways, `J = -1`, spins `(+1, -1)`
(energy field not yet initialised). -/
def c1base : IsingModel 2 :=
  { adj := fun i j => if i = j then 0 else 1
    J := -1
    state := fun i => if i = 0 then 1 else -1
    energy := 0 }

/-- `c1base` with the cached energy initialised by `calculateTotalEnergy`,
as the `IsingModel` constructor does. -/
def c1model : IsingModel 2 :=
  { c1base with energy := calculateTotalEnergy c1base }

/-- One `simulationSteps(T, 1)` call on `c1model`: 2 attempts, both at site 0,
with the random-comparison oracle returning `false`.  The first attempt has
`deltaE = -2 ≤ 0` and is accepted deterministically (flipping site 0); the
second has `deltaE = 2 > 0` and is rejected since the oracle draw fails. -/
def c1after : IsingModel 2 :=
  simulationSteps c1model 1 (fun _ => (0, false))

end C1Setup

/-- **C1** (code bug, evaluation at the failing input).  The spec demands that
the incrementally maintained cached energy match `calculateTotalEnergy`
recomputed from scratch.  On the 2-node unit graph with spins `(+1, -1)`,
one `simulationSteps` call (one deterministically accepted flip of site 0)
leaves the cached energy at `-3` while recomputation yields `1`:
`calculateDeltaEnergy` returns the negative of the actual change of
`calculateTotalEnergy`, so the cache diverges from the true energy. -/
theorem C1_energy_cache_diverges :
    c1model.energy = -1 ∧
    c1after.energy = -3 ∧
    Ising.calculateTotalEnergy c1after = 1 ∧
    c1after.energy ≠ Ising.calculateTotalEnergy c1after := by
  have h1 : c1model.energy = -1 := by
    simp [c1model, c1base, Ising.calculateTotalEnergy, Ising.neighborFinset,
      Finset.sum_filter, Fin.sum_univ_two]
    norm_num
  have h2 : c1after.energy = -3 := by
    simp [c1after, Ising.simulationSteps, List.range_succ, Ising.metropolisAttempt,
      Ising.calculateDeltaEnergy, Ising.neighborFinset, Finset.sum_filter,
      Fin.sum_univ_two, c1model, c1base, Function.update, Ising.calculateTotalEnergy]
    norm_num
  have h3 : Ising.calculateTotalEnergy c1after = 1 := by
    simp [c1after, Ising.simulationSteps, List.range_succ, Ising.metropolisAttempt,
      Ising.calculateDeltaEnergy, Ising.neighborFinset, Finset.sum_filter,
      Fin.sum_univ_two, c1model, c1base, Function.update, Ising.calculateTotalEnergy]
    norm_num
  exact ⟨h1, h2, h3, by rw [h2, h3]; norm_num⟩

/-- **C7** (confirmed).  After `setAllSpins(1)` — all spins `+1`, cached energy
recomputed from scratch — the energy equals `-0.5 * J * (Σ edge weights) * 2`,
i.e. `-J` times the sum of the weights over the undirected edges
`∑_{i<j} w(i,j)`, for every symmetric adjacency. -/
theorem C7_reset_energy_closed_form {n : ℕ} (m : Ising.IsingModel n)
    (hsym : ∀ i j, m.adj i j = m.adj j i) :
    (Ising.setAllSpins m 1).energy
      = -(m.J) * ∑ i, ∑ j, (if i < j then m.adj i j else 0) := by
  have key : ∀ i : Fin n,
      (∑ j in Ising.neighborFinset { m with state := fun _ => (1:ℚ) } i,
        -(1/2) * m.J * (1:ℚ) * (1:ℚ) * m.adj i j)
      = ∑ j, (if j = i then 0 else -(1/2) * m.J * m.adj i j) := by
    intro i
    rw [Ising.neighborFinset, Finset.sum_filter]
    refine Finset.sum_congr rfl (fun j _ => ?_)
    by_cases hji : j = i
    · simp [hji]
    · by_cases hw : m.adj i j = 0
      · simp [hji, hw]
      · simp [hji, hw]
  have split : ∀ i j : Fin n, (if j = i then (0:ℚ) else -(1/2) * m.J * m.adj i j)
      = -(1/2) * m.J * ((if i < j then m.adj i j else 0) + (if j < i then m.adj i j else 0)) := by
    intro i j
    rcases lt_trichotomy i j with h | h | h
    · simp [h.ne', h, lt_asymm h]
    · simp [h]
    · simp [h.ne, h, lt_asymm h, not_lt_of_lt]
  have swap : ∑ i, ∑ j, (if j < i then m.adj i j else (0:ℚ))
      = ∑ i, ∑ j, (if i < j then m.adj i j else 0) := by
    rw [Finset.sum_comm]
    refine Finset.sum_congr rfl (fun a _ => Finset.sum_congr rfl (fun b _ => ?_))
    by_cases h : a < b
    · simp [h, hsym a b]
    · simp [h]
  have h0 : (Ising.setAllSpins m 1).energy
      = ∑ i : Fin n, ∑ j, (if j = i then (0:ℚ) else -(1/2) * m.J * m.adj i j) := by
    show Ising.calculateTotalEnergy { m with state := fun _ => (1:ℚ) } = _
    rw [Ising.calculateTotalEnergy]
    refine Finset.sum_congr rfl (fun i _ => ?_)
    exact key i
  rw [h0]
  have h1 : ∑ i : Fin n, ∑ j, (if j = i then (0:ℚ) else -(1/2) * m.J * m.adj i j)
      = -(1/2) * m.J * (∑ i, ∑ j, ((if i < j then m.adj i j else 0) + (if j < i then m.adj i j else 0))) := by
    rw [Finset.mul_sum]
    refine Finset.sum_congr rfl (fun i _ => ?_)
    rw [Finset.mul_sum]
    exact Finset.sum_congr rfl (fun j _ => split i j)
  rw [h1]
  have h2 : (∑ i : Fin n, ∑ j, ((if i < j then m.adj i j else (0:ℚ)) + (if j < i then m.adj i j else 0)))
      = 2 * ∑ i, ∑ j, (if i < j then m.adj i j else 0) := by
    have hdist := Finset.sum_congr rfl (fun i (_ : i ∈ Finset.univ) => Finset.sum_add_distrib
      (s := Finset.univ) (f := fun j => if i < j then m.adj i j else (0:ℚ))
      (g := fun j => if j < i then m.adj i j else 0))
    rw [hdist, Finset.sum_add_distrib, swap]
    ring
  rw [h2]
  ring

/-- Concrete symmetric 2-node model used as the C7 witness input. -/
def c7model : Ising.IsingModel 2 :=
  { adj := fun i j => if i = j then 0 else 1
    J := -1
    state := fun _ => 5
    energy := 0 }

/-- Witness for C7 at the concrete symmetric 2-node graph. -/
theorem C7_reset_energy_witness :
    (Ising.setAllSpins c7model 1).energy
      = -(c7model.J) * ∑ i, ∑ j, (if i < j then c7model.adj i j else 0) :=
  C7_reset_energy_closed_form c7model (by
    intro i j
    rcases eq_or_ne i j with h | h
    · simp [h]
    · simp [c7model, h, Ne.symm h])

/-- **C9** (confirmed).  The neighbor lists derived by
`verifyAndComputeNeighbors` never contain the node's own index, and both
`calculateTotalEnergy` and `calculateDeltaEnergy` are unaffected by the
diagonal entries of the adjacency matrix: two models whose adjacencies agree
off the diagonal give identical energies — no spin couples to itself. -/
theorem C9_no_self_coupling {n : ℕ} (adj adj' : Fin n → Fin n → ℚ) (J : ℚ)
    (st : Fin n → ℚ) (en en' : ℚ) (site : Fin n)
    (h : ∀ i j, i ≠ j → adj i j = adj' i j) :
    (∀ i : Fin n, i ∉ Ising.neighborFinset ⟨adj, J, st, en⟩ i)
    ∧ Ising.calculateTotalEnergy ⟨adj, J, st, en⟩
        = Ising.calculateTotalEnergy ⟨adj', J, st, en'⟩
    ∧ Ising.calculateDeltaEnergy ⟨adj, J, st, en⟩ site
        = Ising.calculateDeltaEnergy ⟨adj', J, st, en'⟩ site := by
  have hN : ∀ i, Ising.neighborFinset ⟨adj, J, st, en⟩ i
      = Ising.neighborFinset ⟨adj', J, st, en'⟩ i := by
    intro i
    ext j
    simp only [Ising.neighborFinset, Finset.mem_filter, Finset.mem_univ, true_and]
    constructor
    · rintro ⟨hji, hw⟩
      exact ⟨hji, by rw [← h i j (Ne.symm hji)]; exact hw⟩
    · rintro ⟨hji, hw⟩
      exact ⟨hji, by rw [h i j (Ne.symm hji)]; exact hw⟩
  refine ⟨?_, ?_, ?_⟩
  · intro i
    simp [Ising.neighborFinset]
  · rw [Ising.calculateTotalEnergy, Ising.calculateTotalEnergy]
    refine Finset.sum_congr rfl (fun i _ => ?_)
    rw [hN i]
    refine Finset.sum_congr rfl (fun j hj => ?_)
    have hji : j ≠ i := by
      simp only [Ising.neighborFinset, Finset.mem_filter] at hj
      exact hj.2.1
    dsimp only
    rw [h i j (Ne.symm hji)]
  · rw [Ising.calculateDeltaEnergy, Ising.calculateDeltaEnergy]
    rw [hN site]
    congr 1
    refine Finset.sum_congr rfl (fun j hj => ?_)
    have hji : j ≠ site := by
      simp only [Ising.neighborFinset, Finset.mem_filter] at hj
      exact hj.2.1
    show adj site j * st j = adj' site j * st j
    rw [h site j (Ne.symm hji)]

/-- The two C9 witness adjacencies: they differ only on the diagonal. -/
def adj9 : Fin 2 → Fin 2 → ℚ := fun i j => if i = j then 5 else 1

/-- Diagonal-free variant of `adj9`. -/
def adj9off : Fin 2 → Fin 2 → ℚ := fun i j => if i = j then 0 else 1

/-- Witness for C9: two concrete 2-node adjacencies differing only on the
diagonal yield the same neighbor exclusion and identical energies. -/
theorem C9_no_self_coupling_witness :
    (∀ i : Fin 2, i ∉ Ising.neighborFinset ⟨adj9, -1, fun _ => 1, 0⟩ i)
    ∧ Ising.calculateTotalEnergy ⟨adj9, -1, fun _ => 1, 0⟩
        = Ising.calculateTotalEnergy ⟨adj9off, -1, fun _ => 1, 7⟩
    ∧ Ising.calculateDeltaEnergy ⟨adj9, -1, fun _ => 1, 0⟩ 0
        = Ising.calculateDeltaEnergy ⟨adj9off, -1, fun _ => 1, 7⟩ 0 :=
  C9_no_self_coupling adj9 adj9off (-1) (fun _ => 1) 0 7 0 (by
    intro i j hij
    simp [adj9, adj9off, hij])

/-- `toFixed(3)` followed by `parseFloat`, idealised over `ℚ`: round to 3
decimal places, ties toward the larger value (the ECMAScript `toFixed`
picks the larger candidate integer on a tie). -/
def toFixed3 (q : ℚ) : ℚ := (⌊q * 1000 + 1/2⌋ : ℤ) / 1000

/-- `generateTemperaturePoints` with `initialEstimate = null` (the linear,
non-adaptive branch, source lines 1436-1438):
`step = (tempMax - tempMin) / (tempPoints - 1)` and the `i`-th value is
`parseFloat((tempMax - i*step).toFixed(3))`. -/
def generateTemperaturePoints (tempMin tempMax : ℚ) (tempPoints : ℕ) : List ℚ :=
  let step := (tempMax - tempMin) / ((tempPoints : ℚ) - 1)
  (List.range tempPoints).map (fun (i : ℕ) => toFixed3 (tempMax - (i : ℚ) * step))

/-- Rounding to 3 decimals is monotone. -/
theorem toFixed3_mono {a b : ℚ} (h : a ≤ b) : toFixed3 a ≤ toFixed3 b := by
  unfold toFixed3
  have h1 : (⌊a * 1000 + 1/2⌋ : ℤ) ≤ ⌊b * 1000 + 1/2⌋ :=
    Int.floor_le_floor (by nlinarith)
  have h2 : ((⌊a * 1000 + 1/2⌋ : ℤ) : ℚ) ≤ ((⌊b * 1000 + 1/2⌋ : ℤ) : ℚ) := by
    exact_mod_cast h1
  exact div_le_div_of_nonneg_right h2 (by norm_num) |>.trans_eq rfl

/-- Rounding to 3 decimals strictly preserves gaps of at least `1/1000`. -/
theorem toFixed3_strict {a b : ℚ} (h : a + 1/1000 ≤ b) : toFixed3 a < toFixed3 b := by
  unfold toFixed3
  have h1 : (⌊a * 1000 + 1/2⌋ : ℤ) + 1 ≤ ⌊b * 1000 + 1/2⌋ := by
    have h0 : ⌊a * 1000 + 1/2 + 1⌋ ≤ ⌊b * 1000 + 1/2⌋ := Int.floor_le_floor (by nlinarith)
    rwa [Int.floor_add_one] at h0
  have h2 : ((⌊a * 1000 + 1/2⌋ : ℤ) : ℚ) < ((⌊b * 1000 + 1/2⌋ : ℤ) : ℚ) := by
    exact_mod_cast h1
  exact div_lt_div_of_pos_right h2 (by norm_num)

/-- **C8 counterexample**.  With `tempMin = 0.4999 < tempMax = 0.5` and
`count = 2`, the generated schedule is `[0.5, 0.5]` (the second value rounds
up to `0.5` at 3 decimals), which is not strictly descending and whose last
element is not `tempMin` — refuting strict descent for every `min < max`. -/
theorem C8_counterexample :
    generateTemperaturePoints (4999/10000) (1/2) 2 = [1/2, 1/2]
    ∧ ¬ List.Chain' (fun a b => b < a) (generateTemperaturePoints (4999/10000) (1/2) 2)
    ∧ (4999/10000 : ℚ) < 1/2 := by
  have h : generateTemperaturePoints (4999/10000) (1/2) 2 = [1/2, 1/2] := by
    simp only [generateTemperaturePoints, List.range_succ, List.range_zero, List.map_nil,
      List.nil_append, List.map_append, List.map_cons, List.cons_append, toFixed3]
    norm_num
  refine ⟨h, by rw [h]; simp, by norm_num⟩

/-- **C8** (corrected).  For every `tempMin < tempMax` and `count ≥ 2` the
linear schedule has exactly `count` values, first `= toFixed3 tempMax` and
last `= toFixed3 tempMin` (the endpoints up to 3-decimal rounding), evenly
spaced before rounding; the sequence is non-increasing in general, and
strictly descending whenever the spacing `(max-min)/(count-1)` is at least
`0.001` (rounding can merge closer points, as the counterexample shows). -/
theorem C8_schedule_monotone (tempMin tempMax : ℚ) (count : ℕ)
    (hlt : tempMin < tempMax) (hc : 2 ≤ count) :
    (generateTemperaturePoints tempMin tempMax count).length = count
    ∧ (generateTemperaturePoints tempMin tempMax count).head? = some (toFixed3 tempMax)
    ∧ (generateTemperaturePoints tempMin tempMax count).getLast? = some (toFixed3 tempMin)
    ∧ List.Chain' (fun a b => b ≤ a) (generateTemperaturePoints tempMin tempMax count)
    ∧ (1/1000 ≤ (tempMax - tempMin) / ((count:ℚ) - 1) →
        List.Chain' (fun a b => b < a) (generateTemperaturePoints tempMin tempMax count)) := by
  obtain ⟨k, rfl⟩ : ∃ k, count = k + 2 := ⟨count - 2, by omega⟩
  set step := (tempMax - tempMin) / (((k + 2 : ℕ) : ℚ) - 1) with hstep
  have hden : (0:ℚ) < ((k + 2 : ℕ) : ℚ) - 1 := by
    push_cast
    linarith [Nat.cast_nonneg (α := ℚ) k]
  have hstep_pos : 0 < step := div_pos (by linarith) hden
  refine ⟨by simp [generateTemperaturePoints], ?_, ?_, ?_, ?_⟩
  · show ((List.range (k+2)).map (fun (i : ℕ) => toFixed3 (tempMax - (i:ℚ) * step))).head? = _
    rw [List.range_succ_eq_map]
    simp
  · show ((List.range (k+2)).map (fun (i : ℕ) => toFixed3 (tempMax - (i:ℚ) * step))).getLast? = _
    rw [List.range_succ, List.map_append]
    simp only [List.map_cons, List.map_nil]
    rw [List.getLast?_concat]
    have h1 : (k:ℚ) + 1 ≠ 0 := by positivity
    have h2 : (1:ℚ) + (k:ℚ) ≠ 0 := by positivity
    have harg : tempMax - ((k+1 : ℕ) : ℚ) * step = tempMin := by
      rw [hstep]
      push_cast
      have h3 : (k:ℚ) + 2 - 1 = (k:ℚ) + 1 := by ring
      rw [h3]
      field_simp
    rw [harg]
  · show List.Chain' _ ((List.range (k+2)).map (fun (i : ℕ) => toFixed3 (tempMax - (i:ℚ) * step)))
    rw [List.chain'_map]
    rw [show k + 2 = (k+1).succ from rfl, List.chain'_range_succ]
    intro i _
    apply toFixed3_mono
    push_cast
    nlinarith [hstep_pos]
  · intro hbig
    show List.Chain' _ ((List.range (k+2)).map (fun (i : ℕ) => toFixed3 (tempMax - (i:ℚ) * step)))
    rw [List.chain'_map]
    rw [show k + 2 = (k+1).succ from rfl, List.chain'_range_succ]
    intro i _
    apply toFixed3_strict
    push_cast
    rw [hstep] at *
    nlinarith [hbig]

/-- Witness for C8 at `tempMin = 1`, `tempMax = 2`, `count = 3`. -/
theorem C8_schedule_monotone_witness :
    (generateTemperaturePoints 1 2 3).length = 3
    ∧ (generateTemperaturePoints 1 2 3).head? = some (toFixed3 2)
    ∧ (generateTemperaturePoints 1 2 3).getLast? = some (toFixed3 1)
    ∧ List.Chain' (fun a b => b ≤ a) (generateTemperaturePoints 1 2 3)
    ∧ (1/1000 ≤ ((2:ℚ) - 1) / ((3:ℚ) - 1) →
        List.Chain' (fun a b => b < a) (generateTemperaturePoints 1 2 3)) :=
  C8_schedule_monotone 1 2 3 (by norm_num) (by norm_num)

/-- `stepsPerFrame` as computed in `runIsingSimulation` (line 1033):
`Math.min(500, Math.max(50, timeScale))`; `timeScale` is the integer slider
state. -/
def stepsPerFrame (timeScale : ℤ) : ℤ := min 500 (max 50 timeScale)

/-- One call of the animation-frame body `runIsingSimulation`: run
`simulationSteps(simulationTemp, stepsPerFrame)` sweeps. -/
def runIsingSimulationFrame {n : ℕ} (m : Ising.IsingModel n) (timeScale : ℤ)
    (o : ℕ → Fin n × Bool) : Ising.IsingModel n :=
  Ising.simulationSteps m (stepsPerFrame timeScale).toNat o

/-- **C10** (confirmed).  Each animation frame executes
`min(500, max(50, timeScale))` sweeps, which always lies in `[50, 500]`
whatever the user-supplied `timeScale` — the clamp is implicit in
`runIsingSimulation`. -/
theorem C10_steps_per_frame_clamped {n : ℕ} (m : Ising.IsingModel n)
    (timeScale : ℤ) (o : ℕ → Fin n × Bool) :
    runIsingSimulationFrame m timeScale o
      = Ising.simulationSteps m (min 500 (max 50 timeScale)).toNat o
    ∧ 50 ≤ stepsPerFrame timeScale
    ∧ stepsPerFrame timeScale ≤ 500
    ∧ (timeScale < 50 → stepsPerFrame timeScale = 50)
    ∧ (500 < timeScale → stepsPerFrame timeScale = 500) := by
  refine ⟨rfl, ?_, ?_, ?_, ?_⟩ <;> simp [stepsPerFrame] <;> omega

/-- Trivial 1-node model used by the C10 witness. -/
def c10model : Ising.IsingModel 1 := ⟨fun _ _ => 0, -1, fun _ => 1, 0⟩

/-- Witness for C10 at `timeScale = 600` (above the clamp range). -/
theorem C10_steps_per_frame_clamped_witness :
    runIsingSimulationFrame c10model 600 (fun _ => (0, false))
      = Ising.simulationSteps c10model (min 500 (max 50 (600:ℤ))).toNat (fun _ => (0, false))
    ∧ 50 ≤ stepsPerFrame 600
    ∧ stepsPerFrame 600 ≤ 500
    ∧ ((600:ℤ) < 50 → stepsPerFrame 600 = 50)
    ∧ ((500:ℤ) < 600 → stepsPerFrame 600 = 500) :=
  C10_steps_per_frame_clamped c10model 600 (fun _ => (0, false))

/-- One per-temperature chart record (the objects pushed into
`magnetizationData`): `{temperature, magnetization, stdDev, errorHigh,
errorLow, energy}` with `energy` optional. -/
structure DataPoint where
  temperature : ℚ
  magnetization : ℚ
  stdDev : ℚ
  errorHigh : ℚ
  errorLow : ℚ
  energy : Option ℚ
deriving DecidableEq, Inhabited

/-- `sortedData[i].magnetization` with JS out-of-range access defaulting. -/
def magAt (data : List DataPoint) (i : ℕ) : ℚ :=
  ((data[i]?).getD default).magnetization

/-- The smoothing loop of `estimateCriticalTemperatureFromData` (source lines
1670-1689): `windowSize = 3`; a point is copied unchanged when
`i < windowSize/2 || i >= length - windowSize/2` (note `windowSize/2` is the
JS float `1.5`), otherwise its magnetization becomes the window-3 centered
average; all other fields are spread-copied. -/
def smoothMagnetizationData (data : List DataPoint) : List DataPoint :=
  (List.range data.length).map (fun (i : ℕ) =>
    let p := (data[i]?).getD default
    if (i:ℚ) < 3/2 ∨ ((data.length : ℚ)) - 3/2 ≤ (i:ℚ) then p
    else { p with magnetization :=
      (magAt data (i-1) + magAt data i + magAt data (i+1)) / 3 })

/-- The concrete sorted 4-point data refuting C6 at index 1. -/
def c6data : List DataPoint :=
  [⟨1,0,0,0,0,none⟩, ⟨2,3,0,0,0,none⟩, ⟨3,3,0,0,0,none⟩, ⟨4,0,0,0,0,none⟩]

/-- **C6 counterexample**.  On 4 sorted points with magnetizations
`0, 3, 3, 0`, the claim predicts interior index 1 becomes
`(0+3+3)/3 = 2`; the code leaves it at `3` because the edge condition
`i < windowSize/2` uses the JS float `1.5` and so also copies index 1. -/
theorem C6_counterexample :
    ((smoothMagnetizationData c6data)[1]?).map (fun p => p.magnetization) = some 3
    ∧ (magAt c6data 0 + magAt c6data 1 + magAt c6data 2) / 3 = 2
    ∧ (3:ℚ) ≠ 2 := by
  refine ⟨?_, ?_, by norm_num⟩
  · simp only [smoothMagnetizationData, c6data, magAt]
    norm_num
  · simp only [magAt, c6data]
    norm_num

/-- **C6** (corrected).  The smoothing pass preserves length and, at every
index `i < length`, yields the original point with its magnetization
replaced by the centered window-3 average exactly when `2 ≤ i` and
`i ≤ length - 2`; the points at indices `0`, `1` and `length - 1` are copied
unsmoothed (the claim wrongly included index 1 among the smoothed interior
points); all fields other than `magnetization` are unchanged. -/
theorem C6_smoothing_window (data : List DataPoint) (i : ℕ) (h : i < data.length) :
    (smoothMagnetizationData data).length = data.length
    ∧ (smoothMagnetizationData data)[i]?
      = some (if 2 ≤ i ∧ i + 2 ≤ data.length
          then { (data[i]?).getD default with magnetization :=
              (magAt data (i-1) + magAt data i + magAt data (i+1)) / 3 }
          else (data[i]?).getD default) := by
  constructor
  · simp [smoothMagnetizationData]
  · rw [smoothMagnetizationData, List.getElem?_map, List.getElem?_range h]
    simp only [Option.map_some']
    congr 1
    by_cases hc : 2 ≤ i ∧ i + 2 ≤ data.length
    · have hcond : ¬ ((i:ℚ) < 3/2 ∨ ((data.length : ℚ)) - 3/2 ≤ (i:ℚ)) := by
        push_neg
        constructor
        · have h2 : (2:ℚ) ≤ (i:ℚ) := by exact_mod_cast hc.1
          linarith
        · have h2 : (i:ℚ) + 2 ≤ (data.length : ℚ) := by exact_mod_cast hc.2
          linarith
      rw [if_neg hcond, if_pos hc]
    · have hcond : ((i:ℚ) < 3/2 ∨ ((data.length : ℚ)) - 3/2 ≤ (i:ℚ)) := by
        rcases Nat.lt_or_ge i 2 with hlt | hge
        · left
          have h1 : (i:ℚ) ≤ 1 := by exact_mod_cast Nat.lt_succ_iff.mp hlt
          linarith
        · right
          have h1 : (data.length : ℚ) ≤ (i:ℚ) + 1 := by
            exact_mod_cast Nat.lt_succ_iff.mp (by omega : data.length < i + 2)
          linarith
      rw [if_pos hcond, if_neg hc]

/-- The 5-point data used by the C6 witness. -/
def c6wdata : List DataPoint :=
  [⟨1,0,0,0,0,none⟩, ⟨2,1,0,0,0,none⟩, ⟨3,2,0,0,0,none⟩, ⟨4,3,0,0,0,none⟩, ⟨5,4,0,0,0,none⟩]

/-- Witness for C6 at index 2 of a 5-point list (a genuinely smoothed index). -/
theorem C6_smoothing_window_witness :
    (smoothMagnetizationData c6wdata).length = c6wdata.length
    ∧ (smoothMagnetizationData c6wdata)[2]?
      = some (if 2 ≤ 2 ∧ 2 + 2 ≤ c6wdata.length
          then { (c6wdata[2]?).getD default with magnetization :=
              (magAt c6wdata 1 + magAt c6wdata 2 + magAt c6wdata 3) / 3 }
          else (c6wdata[2]?).getD default) :=
  C6_smoothing_window c6wdata 2 (by norm_num [c6wdata])

/-- Iterating single Metropolis attempts, defined by plain recursion on the
attempt count (used to state that `simulationSteps` performs exactly
`nSteps * numNodes` attempts). -/
def attemptIter {n : ℕ} : ℕ → (ℕ → Fin n × Bool) → Ising.IsingModel n → Ising.IsingModel n
  | 0, _, m => m
  | cnt+1, o, m => attemptIter cnt (fun i => o (i+1)) (Ising.metropolisAttempt m (o 0))

/-- The `simulationSteps` fold equals the recursive attempt iteration. -/
theorem range_foldl_attemptIter {n : ℕ} (cnt : ℕ) (o : ℕ → Fin n × Bool)
    (m : Ising.IsingModel n) :
    (List.range cnt).foldl (fun mm k => Ising.metropolisAttempt mm (o k)) m
      = attemptIter cnt o m := by
  induction cnt generalizing o m with
  | zero => rfl
  | succ c ih =>
    rw [List.range_succ_eq_map, List.foldl_cons, List.foldl_map]
    exact ih (fun i => o (i+1)) _

/-- The fold of `cnt` attempts reads only the first `cnt` oracle entries. -/
theorem range_foldl_oracle_congr {n : ℕ} (cnt : ℕ) (o o' : ℕ → Fin n × Bool)
    (m : Ising.IsingModel n) (h : ∀ i, i < cnt → o i = o' i) :
    (List.range cnt).foldl (fun mm k => Ising.metropolisAttempt mm (o k)) m
      = (List.range cnt).foldl (fun mm k => Ising.metropolisAttempt mm (o' k)) m := by
  induction cnt generalizing m with
  | zero => rfl
  | succ c ih =>
    rw [List.range_succ, List.foldl_append, List.foldl_append]
    simp only [List.foldl_cons, List.foldl_nil]
    rw [ih m (fun i hi => h i (Nat.lt_succ_of_lt hi)), h c (Nat.lt_succ_self c)]

/-- `Math.floor(Math.random() * numNodes)` selects each node uniformly: the
draws in `[0,1)` mapping to node `k` form exactly `[k/n, (k+1)/n)`, of
Lebesgue measure `1/n`. -/
theorem site_selection_uniform (n : ℕ) (k : Fin n) :
    {x : ℝ | x ∈ Set.Ico (0:ℝ) 1 ∧ ⌊x * (n:ℝ)⌋ = (k.val : ℤ)}
      = Set.Ico ((k.val:ℝ)/(n:ℝ)) (((k.val:ℝ)+1)/(n:ℝ))
    ∧ MeasureTheory.volume {x : ℝ | x ∈ Set.Ico (0:ℝ) 1 ∧ ⌊x * (n:ℝ)⌋ = (k.val : ℤ)}
      = ENNReal.ofReal (1/(n:ℝ)) := by
  have hn : (0:ℝ) < n := by
    exact_mod_cast Nat.lt_of_le_of_lt (Nat.zero_le _) k.isLt
  have hseteq : {x : ℝ | x ∈ Set.Ico (0:ℝ) 1 ∧ ⌊x * (n:ℝ)⌋ = (k.val : ℤ)}
      = Set.Ico ((k.val:ℝ)/(n:ℝ)) (((k.val:ℝ)+1)/(n:ℝ)) := by
    ext x
    simp only [Set.mem_setOf_eq, Set.mem_Ico]
    constructor
    · rintro ⟨⟨hx0, hx1⟩, hfl⟩
      obtain ⟨hlo, hhi⟩ := (Int.floor_eq_iff).mp hfl
      push_cast at hlo hhi
      constructor
      · exact (div_le_iff₀ hn).mpr hlo
      · exact (lt_div_iff₀ hn).mpr hhi
    · rintro ⟨h1, h2⟩
      have hkn : (k.val:ℝ) + 1 ≤ n := by exact_mod_cast k.isLt
      have hlo : (k.val:ℝ) ≤ x * n := (div_le_iff₀ hn).mp h1
      have hhi : x * n < (k.val:ℝ) + 1 := (lt_div_iff₀ hn).mp h2
      refine ⟨⟨?_, ?_⟩, ?_⟩
      · exact le_trans (div_nonneg (Nat.cast_nonneg _) hn.le) h1
      · calc x < ((k.val:ℝ)+1)/n := h2
          _ ≤ (n:ℝ)/n := by gcongr
          _ = 1 := div_self (ne_of_gt hn)
      · refine (Int.floor_eq_iff).mpr ?_
        push_cast
        exact ⟨hlo, hhi⟩
  refine ⟨hseteq, ?_⟩
  rw [hseteq, Real.volume_Ico]
  congr 1
  field_simp

/-- **C3** (confirmed).  A Metropolis step: (a) the random site map
`u ↦ ⌊u·n⌋` is uniform over the `n` nodes; (b) `calculateDeltaEnergy` is the
spec's `-2·J·s_i·Σ_j w(i,j)·s_j` and mutates nothing (the attempt leaves
`adj` and `J` untouched and only the selected spin changes); (c) the flip
happens exactly under `deltaE ≤ 0 ∨ u < exp(-deltaE/T)` (the boolean oracle
`b` encodes the random comparison), updating the spin to its negation and
the cached energy by `deltaE`; (d) `simulationSteps(T, nSteps)` performs
exactly `nSteps * numNodes` attempts — it equals the `nSteps * n`-fold
attempt iteration and reads no oracle entry beyond index `nSteps * n`. -/
theorem C3_metropolis_step {n : ℕ} (m : Ising.IsingModel n) (site k : Fin n)
    (T u : ℝ) (b : Bool) (nSteps : ℕ) (o : ℕ → Fin n × Bool)
    (hb : b = true ↔ u < Real.exp (-(Ising.calculateDeltaEnergy m site : ℝ) / T)) :
    ({x : ℝ | x ∈ Set.Ico (0:ℝ) 1 ∧ ⌊x * (n:ℝ)⌋ = (k.val : ℤ)}
        = Set.Ico ((k.val:ℝ)/(n:ℝ)) (((k.val:ℝ)+1)/(n:ℝ))
      ∧ MeasureTheory.volume {x : ℝ | x ∈ Set.Ico (0:ℝ) 1 ∧ ⌊x * (n:ℝ)⌋ = (k.val : ℤ)}
        = ENNReal.ofReal (1/(n:ℝ)))
    ∧ Ising.calculateDeltaEnergy m site
        = -2 * m.J * m.state site
            * ∑ j in Ising.neighborFinset m site, m.adj site j * m.state j
    ∧ (Ising.metropolisAccept (Ising.calculateDeltaEnergy m site) T u →
        (Ising.metropolisAttempt m (site, b)).state site = -(m.state site)
        ∧ (Ising.metropolisAttempt m (site, b)).energy
            = m.energy + Ising.calculateDeltaEnergy m site)
    ∧ (¬ Ising.metropolisAccept (Ising.calculateDeltaEnergy m site) T u →
        Ising.metropolisAttempt m (site, b) = m)
    ∧ (∀ j, j ≠ site → (Ising.metropolisAttempt m (site, b)).state j = m.state j)
    ∧ ((Ising.metropolisAttempt m (site, b)).adj = m.adj
        ∧ (Ising.metropolisAttempt m (site, b)).J = m.J)
    ∧ Ising.simulationSteps m nSteps o = attemptIter (nSteps * n) o m
    ∧ (∀ o' : ℕ → Fin n × Bool, (∀ i, i < nSteps * n → o i = o' i) →
        Ising.simulationSteps m nSteps o = Ising.simulationSteps m nSteps o') := by
  refine ⟨site_selection_uniform n k, rfl, ?_, ?_, ?_, ?_, ?_, ?_⟩
  · intro hacc
    have hcond : Ising.calculateDeltaEnergy m site ≤ 0 ∨ b = true := by
      rcases hacc with h | h
      · exact Or.inl h
      · exact Or.inr (hb.mpr h)
    rw [Ising.metropolisAttempt]
    simp only [hcond, if_pos]
    constructor
    · exact Function.update_same _ _ _
    · trivial
  · intro hacc
    rw [Ising.metropolisAccept] at hacc
    push_neg at hacc
    have hcond : ¬ (Ising.calculateDeltaEnergy m site ≤ 0 ∨ b = true) := by
      rintro (h | h)
      · exact absurd h (by exact_mod_cast hacc.1.not_le)
      · exact absurd (hb.mp h) hacc.2.not_lt
    rw [Ising.metropolisAttempt]
    simp only [hcond, if_neg, not_false_iff]
  · intro j hj
    rw [Ising.metropolisAttempt]
    by_cases hcond : Ising.calculateDeltaEnergy m site ≤ 0 ∨ b = true
    · simp only [hcond, if_pos]
      exact Function.update_noteq hj _ _
    · simp only [hcond, if_neg, not_false_iff]
  · rw [Ising.metropolisAttempt]
    by_cases hcond : Ising.calculateDeltaEnergy m site ≤ 0 ∨ b = true
    · simp only [hcond, if_pos]
      exact ⟨trivial, trivial⟩
    · simp only [hcond, if_neg, not_false_iff]
      exact ⟨trivial, trivial⟩
  · exact range_foldl_attemptIter (nSteps * n) o m
  · intro o' h
    exact range_foldl_oracle_congr (nSteps * n) o o' m h

/-- The concrete 2-node model used by the C3 witness (spins `(+1, -1)`). -/
def c3model : Ising.IsingModel 2 :=
  { adj := fun i j => if i = j then 0 else 1
    J := -1
    state := fun i => if i = 0 then 1 else -1
    energy := 0 }

/-- Witness for C3: at `c3model`, site 0 has `deltaE = -2 ≤ 0`, so the
attempt (with the random comparison oracled `true`, `T = 1`, `u = -1`) flips
the spin and adds `deltaE` to the cached energy. -/
theorem C3_metropolis_step_witness :
    (Ising.metropolisAttempt c3model ((0 : Fin 2), true)).state 0 = -(c3model.state 0)
    ∧ (Ising.metropolisAttempt c3model ((0 : Fin 2), true)).energy
        = c3model.energy + Ising.calculateDeltaEnergy c3model 0 :=
  (C3_metropolis_step c3model 0 1 1 (-1) true 1 (fun _ => (0, false))
    (iff_of_true rfl (by
      have hp := Real.exp_pos (-(Ising.calculateDeltaEnergy c3model 0 : ℝ) / 1)
      linarith))).2.2.1
    (Or.inl (by
      simp [Ising.calculateDeltaEnergy, Ising.neighborFinset, Finset.sum_filter,
        Fin.sum_univ_two, c3model]))

/-- JS whitespace for `trim` (ASCII subset used by the inputs). -/
def isSpaceChar (c : Char) : Bool :=
  c == ' ' || c == '\t' || c == '\r' || c == '\n'

/-- `String.prototype.trim`. -/
def trimChars (cs : List Char) : List Char :=
  ((cs.dropWhile isSpaceChar).reverse.dropWhile isSpaceChar).reverse

/-- `String.prototype.split(sep)` for a single-character separator. -/
def splitOnChar (sep : Char) (cs : List Char) : List (List Char) :=
  cs.foldr (fun c acc =>
    match acc with
    | [] => [[c]]
    | cur :: rest => if c == sep then [] :: (cur :: rest) else (c :: cur) :: rest) [[]]

/-- Digit run value, most significant first. -/
def digitsToNat (ds : List Char) : ℕ :=
  ds.foldl (fun a c => a * 10 + (c.toNat - 48)) 0

/-- Longest leading digit run as a natural number; `none` when the run is
empty (`parseInt` yields `NaN`). -/
def leadingNat (cs : List Char) : Option ℕ :=
  let ds := cs.takeWhile Char.isDigit
  if ds.isEmpty then none else some (digitsToNat ds)

/-- `parseInt(s, 10)` on a pre-trimmed field: optional sign, then the longest
leading digit run; trailing garbage ignored; `none` models `NaN`. -/
def jsParseInt (cs : List Char) : Option ℤ :=
  match cs with
  | '-' :: rest => (leadingNat rest).map (fun v => -(v:ℤ))
  | '+' :: rest => (leadingNat rest).map (fun v => (v:ℤ))
  | rest => (leadingNat rest).map (fun v => (v:ℤ))

/-- Unsigned mantissa of `parseFloat`: `digits [. digits?] | . digits`;
returns the value and the unconsumed remainder. -/
def parseMantissa (cs : List Char) : Option (ℚ × List Char) :=
  let intDs := cs.takeWhile Char.isDigit
  let rest1 := cs.dropWhile Char.isDigit
  match rest1 with
  | '.' :: rest2 =>
      let fracDs := rest2.takeWhile Char.isDigit
      let rest3 := rest2.dropWhile Char.isDigit
      if intDs.isEmpty && fracDs.isEmpty then none
      else some ((digitsToNat intDs : ℚ)
        + (digitsToNat fracDs : ℚ) / (10:ℚ) ^ fracDs.length, rest3)
  | _ => if intDs.isEmpty then none else some ((digitsToNat intDs : ℚ), rest1)

/-- Exponent suffix of `parseFloat` (`e`/`E`, optional sign, digits); an
incomplete suffix is ignored, as the longest-valid-prefix rule demands. -/
def parseExponent (cs : List Char) : ℤ :=
  let signed : List Char → ℤ := fun rest =>
    match rest with
    | '-' :: r => -((leadingNat r).getD 0 : ℤ)
    | '+' :: r => ((leadingNat r).getD 0 : ℤ)
    | r => ((leadingNat r).getD 0 : ℤ)
  match cs with
  | 'e' :: rest => signed rest
  | 'E' :: rest => signed rest
  | _ => 0

/-- `parseFloat` (decimal grammar; `Infinity` and `NaN` inputs are modelled
as unparseable since `ℚ` has no such values). -/
def jsParseFloat (cs : List Char) : Option ℚ :=
  let pos : List Char → Option ℚ := fun rest =>
    (parseMantissa rest).map (fun mv => mv.1 * (10:ℚ) ^ parseExponent mv.2)
  match cs with
  | '-' :: rest => (pos rest).map (fun v => -v)
  | '+' :: rest => pos rest
  | rest => pos rest

structure CSVEntry where
  row : ℤ
  col : ℤ
  value : ℚ
deriving DecidableEq

/-- Per-line processing shared by both `parseCSVToAdjacencyMatrix` versions:
trim; skip blank lines and `#` comments; split on `','` and trim fields;
skip lines with fewer than 3 fields; parse `row`, `col`, `value`; skip when
any is `NaN`. -/
def parseLineCommon (line : List Char) : Option CSVEntry :=
  let t := trimChars line
  if t.isEmpty then none
  else if t.head? = some '#' then none
  else
    let parts := (splitOnChar ',' t).map trimChars
    if parts.length < 3 then none
    else
      match jsParseInt ((parts.get? 0).getD []), jsParseInt ((parts.get? 1).getD []),
          jsParseFloat ((parts.get? 2).getD []) with
      | some r, some c, some v => some ⟨r, c, v⟩
      | _, _, _ => none

/-- The module-level parser additionally skips entries with non-positive
row/column indices. -/
def parseLineModule (line : List Char) : Option CSVEntry :=
  (parseLineCommon line).bind (fun e =>
    if e.row ≤ 0 ∨ e.col ≤ 0 then none else some e)

/-- `csvText.trim().split('\n')`. -/
def csvLines (text : String) : List (List Char) :=
  splitOnChar '\n' (trimChars text.data)

def validEntriesModule (text : String) : List CSVEntry :=
  (csvLines text).filterMap parseLineModule

def validEntriesComponent (text : String) : List CSVEntry :=
  (csvLines text).filterMap parseLineCommon

/-- `maxRowCol`, accumulated in scan order. -/
def maxRowCol (entries : List CSVEntry) : ℤ :=
  entries.foldl (fun a e => max a (max e.row e.col)) 0

/-- One `entries.forEach` write of the module-level parser: bounds-check
`r, c ∈ [0, N)`, then set both `[r][c]` and `[c][r]` to the value. -/
def writeEntrySym (N : ℤ) (M : ℤ → ℤ → ℚ) (e : CSVEntry) : ℤ → ℤ → ℚ :=
  let r := e.row - 1
  let c := e.col - 1
  if r < 0 ∨ N ≤ r ∨ c < 0 ∨ N ≤ c then M
  else fun i j => if (i = r ∧ j = c) ∨ (i = c ∧ j = r) then e.value else M i j

/-- One write of the component-level parser: set only `[row-1][col-1]`. -/
def writeEntryOneDir (M : ℤ → ℤ → ℚ) (e : CSVEntry) : ℤ → ℤ → ℚ :=
  fun i j => if i = e.row - 1 ∧ j = e.col - 1 then e.value else M i j

def parseCSVToAdjacencyMatrix (text : String) : Except String (ℤ × (ℤ → ℤ → ℚ)) :=
  let entries := validEntriesModule text
  if entries.isEmpty then .error "No valid entries found in CSV file"
  else .ok (maxRowCol entries,
    entries.foldl (writeEntrySym (maxRowCol entries)) (fun _ _ => 0))

def parseCSVToAdjacencyMatrixComponent (text : String) : Except String (ℤ × (ℤ → ℤ → ℚ)) :=
  let entries := validEntriesComponent text
  if entries.isEmpty then .error "No valid entries found in CSV file"
  else if entries.any (fun e => decide (e.row ≤ 0)) then
    .error "TypeError: row index before the start of the array"
  else .ok (maxRowCol entries, entries.foldl writeEntryOneDir (fun _ _ => 0))

def parseSucceeds (res : Except String (ℤ × (ℤ → ℤ → ℚ))) : Bool :=
  match res with
  | .ok _ => true
  | .error _ => false

def parsedWeight (res : Except String (ℤ × (ℤ → ℤ → ℚ))) (i j : ℤ) : Option ℚ :=
  match res with
  | .ok nm => some (nm.2 i j)
  | .error _ => none

-- (a) the module-level fill is always symmetric
theorem foldl_writeEntrySym_symm (N : ℤ) (entries : List CSVEntry)
    (M0 : ℤ → ℤ → ℚ) (h0 : ∀ i j, M0 i j = M0 j i) :
    ∀ i j, (entries.foldl (writeEntrySym N) M0) i j
      = (entries.foldl (writeEntrySym N) M0) j i := by
  induction entries generalizing M0 with
  | nil => exact h0
  | cons e es ih =>
    refine ih (writeEntrySym N M0 e) ?_
    intro i j
    rw [writeEntrySym]
    by_cases hb : e.row - 1 < 0 ∨ N ≤ e.row - 1 ∨ e.col - 1 < 0 ∨ N ≤ e.col - 1
    · rw [if_pos hb]
      exact h0 i j
    · rw [if_neg hb]
      by_cases hc : (i = e.row - 1 ∧ j = e.col - 1) ∨ (i = e.col - 1 ∧ j = e.row - 1)
    

      · have hc2 : (j = e.row - 1 ∧ i = e.col - 1) ∨ (j = e.col - 1 ∧ i = e.row - 1) := by
          tauto
        rw [if_pos hc, if_pos hc2]
      · have hc2 : ¬ ((j = e.row - 1 ∧ i = e.col - 1) ∨ (j = e.col - 1 ∧ i = e.row - 1)) := by
          tauto
        rw [if_neg hc, if_neg hc2]
        exact h0 i j

-- (b1) absent pair stays zero in the component fill
theorem foldl_writeEntryOneDir_not_written (entries : List CSVEntry)
    (M0 : ℤ → ℤ → ℚ) (i j : ℤ)
    (h : ∀ e ∈ entries, ¬ (i = e.row - 1 ∧ j = e.col - 1)) :
    (entries.foldl writeEntryOneDir M0) i j = M0 i j := by
  induction entries generalizing M0 with
  | nil => rfl
  | cons e es ih =>
    rw [List.foldl_cons,
      ih (writeEntryOneDir M0 e) (fun f hf => h f (List.mem_cons_of_mem e hf))]
    rw [writeEntryOneDir]
    rw [if_neg (h e (List.mem_cons_self e es))]

-- last-writer characterisation of the component fill
def lastWriteValue (entries : List CSVEntry) (i j : ℤ) : Option ℚ :=
  entries.foldl (fun acc e => if i = e.row - 1 ∧ j = e.col - 1 then some e.value else acc) none

theorem lastWrite_acc (entries : List CSVEntry) (i j : ℤ) :
    ∀ (acc : Option ℚ) (d : ℚ),
      ((entries.foldl (fun acc e =>
          if i = e.row - 1 ∧ j = e.col - 1 then some e.value else acc) acc).getD d)
        = (lastWriteValue entries i j).getD (acc.getD d) := by
  induction entries with
  | nil => intro acc d; rfl
  | cons e es ih =>
    intro acc d
    rw [lastWriteValue, List.foldl_cons, List.foldl_cons]
    by_cases hc : i = e.row - 1 ∧ j = e.col - 1
    · rw [if_pos hc, if_pos hc, ih (some e.value) d, ih (some e.value) (acc.getD d)]
      rfl
    · rw [if_neg hc, if_neg hc, ih acc d]
      rfl

theorem foldl_writeEntryOneDir_eq_lastWrite (entries : List CSVEntry)
    (M0 : ℤ → ℤ → ℚ) (i j : ℤ) :
    (entries.foldl writeEntryOneDir M0) i j = (lastWriteValue entries i j).getD (M0 i j) := by
  induction entries generalizing M0 with
  | nil => rfl
  | cons e es ih =>
    rw [List.foldl_cons, ih (writeEntryOneDir M0 e)]
    have hLW : lastWriteValue (e :: es) i j
        = es.foldl (fun acc f => if i = f.row - 1 ∧ j = f.col - 1 then some f.value else acc)
            (if i = e.row - 1 ∧ j = e.col - 1 then some e.value else none) := by
      rw [lastWriteValue, List.foldl_cons]
    rw [hLW]
    have hw : (writeEntryOneDir M0 e) i j
        = if i = e.row - 1 ∧ j = e.col - 1 then e.value else M0 i j := rfl
    rw [hw]
    by_cases hc : i = e.row - 1 ∧ j = e.col - 1
    · rw [if_pos hc, if_pos hc, lastWrite_acc es i j (some e.value) (M0 i j)]
      rfl
    · rw [if_neg hc, if_neg hc]
      rfl

theorem lastWrite_some_acc (es : List CSVEntry) (i j : ℤ) :
    ∀ v : ℚ, (es.foldl (fun acc e =>
      if i = e.row - 1 ∧ j = e.col - 1 then some e.value else acc) (some v)) ≠ none := by
  induction es with
  | nil => intro v h; exact Option.noConfusion h
  | cons e es ih =>
    intro v
    rw [List.foldl_cons]
    by_cases hc : i = e.row - 1 ∧ j = e.col - 1
    · rw [if_pos hc]
      exact ih e.value
    · rw [if_neg hc]
      exact ih v

theorem lastWrite_none_iff (entries : List CSVEntry) (i j : ℤ) :
    lastWriteValue entries i j = none
      ↔ ∀ e ∈ entries, ¬ (i = e.row - 1 ∧ j = e.col - 1) := by
  induction entries with
  | nil => simp [lastWriteValue]
  | cons e es ih =>
    rw [lastWriteValue, List.foldl_cons]
    by_cases hc : i = e.row - 1 ∧ j = e.col - 1
    · rw [if_pos hc]
      constructor
      · intro hnone
        exact absurd hnone (lastWrite_some_acc es i j e.value)
      · intro hall
        exact absurd hc (hall e (List.mem_cons_self e es))
    · rw [if_neg hc]
      rw [lastWriteValue] at ih
      rw [ih]
      constructor
      · intro hall f hf
        rcases List.mem_cons.mp hf with rfl | hf2
        · exact hc
        · exact hall f hf2
      · intro hall f hf
        exact hall f (List.mem_cons_of_mem e hf)

theorem lastWrite_mem_acc (es : List CSVEntry) (i j : ℤ) :
    ∀ (acc : Option ℚ) (v : ℚ),
      es.foldl (fun acc e =>
        if i = e.row - 1 ∧ j = e.col - 1 then some e.value else acc) acc = some v →
      (∃ e ∈ es, (i = e.row - 1 ∧ j = e.col - 1) ∧ e.value = v) ∨ acc = some v := by
  induction es with
  | nil => intro acc v h; exact Or.inr h
  | cons e es ih =>
    intro acc v h
    rw [List.foldl_cons] at h
    rcases ih _ v h with ⟨f, hf, hcond, hval⟩ | hacc
    · exact Or.inl ⟨f, List.mem_cons_of_mem e hf, hcond, hval⟩
    · by_cases hc : i = e.row - 1 ∧ j = e.col - 1
      · rw [if_pos hc] at hacc
        exact Or.inl ⟨e, List.mem_cons_self e es, hc, Option.some_inj.mp hacc⟩
      · rw [if_neg hc] at hacc
        exact Or.inr hacc

theorem lastWrite_some_mem (entries : List CSVEntry) (i j : ℤ) (v : ℚ)
    (h : lastWriteValue entries i j = some v) :
    ∃ e ∈ entries, (i = e.row - 1 ∧ j = e.col - 1) ∧ e.value = v := by
  rcases lastWrite_mem_acc entries i j none v h with hmem | hbad
  · exact hmem
  · exact Option.noConfusion hbad

theorem foldl_writeEntryOneDir_symm (entries : List CSVEntry)
    (H1 : ∀ e ∈ entries, ∃ e2 ∈ entries, e2.row = e.col ∧ e2.col = e.row ∧ e2.value = e.value)
    (H2 : ∀ e ∈ entries, ∀ f ∈ entries,
        ((f.row = e.row ∧ f.col = e.col) ∨ (f.row = e.col ∧ f.col = e.row)) → f.value = e.value)
    (i j : ℤ) :
    (entries.foldl writeEntryOneDir (fun _ _ => 0)) i j
      = (entries.foldl writeEntryOneDir (fun _ _ => 0)) j i := by
  rw [foldl_writeEntryOneDir_eq_lastWrite, foldl_writeEntryOneDir_eq_lastWrite]
  rcases hij : lastWriteValue entries i j with _ | v
  · have hji : lastWriteValue entries j i = none := by
      rw [lastWrite_none_iff] at hij ⊢
      rintro f hf ⟨hjr, hic⟩
      obtain ⟨g, hg, hgr, hgc, hgv⟩ := H1 f hf
      refine hij g hg ⟨?_, ?_⟩
      · rw [hgr, ← hic]
      · rw [hgc, ← hjr]
    rw [hji]
  · obtain ⟨e, he, ⟨hir, hjc⟩, hev⟩ := lastWrite_some_mem entries i j v hij
    obtain ⟨g, hg, hgr, hgc, hgv⟩ := H1 e he
    have hgw : j = g.row - 1 ∧ i = g.col - 1 := ⟨by rw [hgr, ← hjc], by rw [hgc, ← hir]⟩
    rcases hji : lastWriteValue entries j i with _ | w
    · exact absurd hgw ((lastWrite_none_iff entries j i).mp hji g hg)
    · obtain ⟨f, hf, ⟨hjfr, hifc⟩, hfv⟩ := lastWrite_some_mem entries j i w hji
      have hfr : f.row = e.col := by omega
      have hfc : f.col = e.row := by omega
      have hveq : f.value = e.value := H2 e he f hf (Or.inr ⟨hfr, hfc⟩)
      rw [show w = v by rw [← hfv, hveq, hev]]

/-- **C2** (corrected).  Auto-symmetrization holds for the module-level
`parseCSVToAdjacencyMatrix` — its output matrix is always symmetric — but
not for the component-level parser that `handleFileUpload` actually calls
(the inner definition shadows the module-level one): that parser writes only
the `(i,j)` cell, so a pair with no `(j,i)` entry keeps weight 0 there; it
does produce a symmetric matrix when the input supplies both directions with
equal weights. -/
theorem C2_parse_symmetrization (text : String) (i j : ℤ) :
    parsedWeight (parseCSVToAdjacencyMatrix text) i j
      = parsedWeight (parseCSVToAdjacencyMatrix text) j i
    ∧ ((∀ e ∈ validEntriesComponent text, ¬ (i = e.row - 1 ∧ j = e.col - 1)) →
        ∀ q, parsedWeight (parseCSVToAdjacencyMatrixComponent text) i j = some q → q = 0)
    ∧ ((∀ e ∈ validEntriesComponent text, ∃ e2 ∈ validEntriesComponent text,
          e2.row = e.col ∧ e2.col = e.row ∧ e2.value = e.value) →
       (∀ e ∈ validEntriesComponent text, ∀ f ∈ validEntriesComponent text,
          ((f.row = e.row ∧ f.col = e.col) ∨ (f.row = e.col ∧ f.col = e.row)) →
            f.value = e.value) →
        parsedWeight (parseCSVToAdjacencyMatrixComponent text) i j
          = parsedWeight (parseCSVToAdjacencyMatrixComponent text) j i) := by
  refine ⟨?_, ?_, ?_⟩
  · rw [parseCSVToAdjacencyMatrix]
    by_cases hemp : (validEntriesModule text).isEmpty
    · rw [if_pos hemp]
      rfl
    · rw [if_neg hemp]
      show some _ = some _
      exact congrArg some (foldl_writeEntrySym_symm _ _ _
        (fun (a : ℤ) (b : ℤ) => (rfl : (0:ℚ) = 0)) i j)
  · intro hnone q
    rw [parseCSVToAdjacencyMatrixComponent]
    by_cases hemp : (validEntriesComponent text).isEmpty
    · rw [if_pos hemp]
      intro h
      exact Option.noConfusion h
    · rw [if_neg hemp]
      by_cases hneg : (validEntriesComponent text).any (fun e => decide (e.row ≤ 0))
      · rw [if_pos hneg]
        intro h
        exact Option.noConfusion h
      · rw [if_neg hneg]
        intro h
        have h2 := Option.some_inj.mp h
        dsimp only at h2
        rw [foldl_writeEntryOneDir_not_written _ _ _ _ hnone] at h2
        exact h2.symm
  · intro H1 H2
    rw [parseCSVToAdjacencyMatrixComponent]
    by_cases hemp : (validEntriesComponent text).isEmpty
    · rw [if_pos hemp]
      rfl
    · rw [if_neg hemp]
      by_cases hneg : (validEntriesComponent text).any (fun e => decide (e.row ≤ 0))
      · rw [if_pos hneg]
        rfl
      · rw [if_neg hneg]
        exact congrArg some (foldl_writeEntryOneDir_symm _ H1 H2 i j)

def c2text : String := "1,2,3\n# a,b,c\n# d,e,f"

/-- **C2 counterexample**.  The upload input `"1,2,3\n# a,b,c\n# d,e,f"`
(3 lines, so it passes the `handleFileUpload` prechecks) parses through the
component-level parser to a matrix with `weight(1,2) = 3` but
`weight(2,1) = 0` — the claim's auto-symmetrization `weight(j,i) = w`
fails for the parse operation used on upload. -/
theorem C2_counterexample :
    parsedWeight (parseCSVToAdjacencyMatrixComponent c2text) 0 1 = some 3
    ∧ parsedWeight (parseCSVToAdjacencyMatrixComponent c2text) 1 0 = some 0
    ∧ (csvLines c2text).length = 3
    ∧ ((0:ℚ) = 3 → False) := by
  refine ⟨?_, by rfl, by decide, by norm_num⟩
  have h : parsedWeight (parseCSVToAdjacencyMatrixComponent c2text) 0 1
      = some ((digitsToNat ['3'] : ℚ) * (10:ℚ) ^ (0:ℤ)) := rfl
  rw [h, show digitsToNat ['3'] = 3 from rfl]
  norm_num

def c2wtext : String := "1,2,3\n2,1,3"

/-- **C4** (corrected).  The parse does not fail on malformed lines: lines
with fewer than 3 fields, unparseable numbers, or (module-level)
non-positive indices are skipped with a logged message.  The module-level
parse fails exactly when no line yields a valid entry; the component-level
(upload) parse fails exactly when no line yields a valid entry or some valid
entry has a non-positive row index (a JS `TypeError` from writing
`adjMatrix[row-1]` outside the array, caught and rethrown). -/
theorem C4_parse_failure_condition (text : String) :
    (parseSucceeds (parseCSVToAdjacencyMatrix text) = true
      ↔ ∃ l ∈ csvLines text, parseLineModule l ≠ none)
    ∧ (parseSucceeds (parseCSVToAdjacencyMatrixComponent text) = true
      ↔ ((∃ l ∈ csvLines text, parseLineCommon l ≠ none)
          ∧ ∀ e ∈ validEntriesComponent text, 0 < e.row)) := by
  have hne : ∀ (f : List Char → Option CSVEntry) (L : List (List Char)),
      (¬ (L.filterMap f).isEmpty = true) ↔ ∃ l ∈ L, f l ≠ none := by
    intro f L
    rw [List.isEmpty_iff, List.filterMap_eq_nil_iff]
    push_neg
    constructor
    · rintro ⟨l, hl, hf⟩
      exact ⟨l, hl, hf⟩
    · rintro ⟨l, hl, hf⟩
      exact ⟨l, hl, hf⟩
  constructor
  · rw [parseCSVToAdjacencyMatrix]
    by_cases hemp : (validEntriesModule text).isEmpty
    · rw [if_pos hemp]
      rw [show parseSucceeds (Except.error "No valid entries found in CSV file") = false from rfl]
      simp only [Bool.false_eq_true, false_iff]
      intro hex
      exact (hne parseLineModule (csvLines text)).mpr hex hemp
    · rw [if_neg hemp]
      rw [show ∀ p, parseSucceeds (Except.ok p) = true from fun _ => rfl]
      simp only [true_iff]
      exact (hne parseLineModule (csvLines text)).mp hemp
  · rw [parseCSVToAdjacencyMatrixComponent]
    by_cases hemp : (validEntriesComponent text).isEmpty
    · rw [if_pos hemp]
      rw [show parseSucceeds (Except.error "No valid entries found in CSV file") = false from rfl]
      simp only [Bool.false_eq_true, false_iff]
      rintro ⟨hex, _⟩
      exact (hne parseLineCommon (csvLines text)).mpr hex hemp
    · rw [if_neg hemp]
      by_cases hany : (validEntriesComponent text).any (fun e => decide (e.row ≤ 0))
      · rw [if_pos hany]
        rw [show parseSucceeds
            (Except.error "TypeError: row index before the start of the array") = false from rfl]
        simp only [Bool.false_eq_true, false_iff]
        rintro ⟨_, hall⟩
        obtain ⟨e, he, hdec⟩ := List.any_eq_true.mp hany
        exact absurd (hall e he) (not_lt_of_le (of_decide_eq_true hdec))
      · rw [if_neg hany]
        rw [show ∀ p, parseSucceeds (Except.ok p) = true from fun _ => rfl]
        simp only [true_iff]
        refine ⟨(hne parseLineCommon (csvLines text)).mp hemp, ?_⟩
        intro e he
        by_contra hnot
        exact hany (List.any_eq_true.mpr ⟨e, he, decide_eq_true (by omega)⟩)

/-- Witness for C2 on the both-directions input `"1,2,3\n2,1,3"`:
the module parse is symmetric at `(0,1)`; the component matrix is 0 at the
never-written pair `(4,5)` and symmetric at `(0,1)` since both directions
carry equal weights. -/
theorem C2_parse_symmetrization_witness :
    parsedWeight (parseCSVToAdjacencyMatrix c2wtext) 0 1
      = parsedWeight (parseCSVToAdjacencyMatrix c2wtext) 1 0
    ∧ (∀ q, parsedWeight (parseCSVToAdjacencyMatrixComponent c2wtext) 4 5 = some q → q = 0)
    ∧ parsedWeight (parseCSVToAdjacencyMatrixComponent c2wtext) 0 1
      = parsedWeight (parseCSVToAdjacencyMatrixComponent c2wtext) 1 0 := by
  have hent : validEntriesComponent c2wtext = [⟨1, 2, 3⟩, ⟨2, 1, 3⟩] := by
    have h : validEntriesComponent c2wtext
        = [⟨1, 2, (digitsToNat ['3'] : ℚ) * (10:ℚ) ^ (0:ℤ)⟩,
           ⟨2, 1, (digitsToNat ['3'] : ℚ) * (10:ℚ) ^ (0:ℤ)⟩] := rfl
    rw [h, show digitsToNat ['3'] = 3 from rfl]
    norm_num
  refine ⟨(C2_parse_symmetrization c2wtext 0 1).1, ?_, ?_⟩
  · refine (C2_parse_symmetrization c2wtext 4 5).2.1 ?_
    rw [hent]
    decide
  · refine (C2_parse_symmetrization c2wtext 0 1).2.2 ?_ ?_
    · rw [hent]
      decide
    · rw [hent]
      decide

/-- The C4 counterexample input: its first line has only 2 fields. -/
def c4text : String := "1,2\n1,2,3"

/-- **C4 counterexample**.  `"1,2\n1,2,3"` contains a line with fewer than 3
fields, yet both parsers succeed (the bad line is skipped, the second line
yields a valid entry) — refuting "fails for every input in which some line
has fewer than 3 fields". -/
theorem C4_counterexample :
    parseSucceeds (parseCSVToAdjacencyMatrix c4text) = true
    ∧ parseSucceeds (parseCSVToAdjacencyMatrixComponent c4text) = true
    ∧ ((splitOnChar ',' (trimChars ['1', ',', '2'])).map trimChars).length < 3
    ∧ ['1', ',', '2'] ∈ csvLines c4text := by
  refine ⟨by decide, by decide, by decide, by decide⟩

/-!
The temperature-sweep engine (`startCalculation` /
`calculateMagnetizationAtTemperature`, source lines 1442-1515 and 1569-1614).
Cooperative cancellation is modelled by a threshold `A`: abort-flag checks are
numbered by a tick counter `t`, and the check with index `t` observes the flag
raised exactly when `A ≤ t` (the flag is monotone: once raised it stays
raised).  Checks happen at the head of the per-temperature loop, at the start
of each equilibration chunk, and after each measurement trial — exactly the
positions of `abortController.current?.signal.aborted` tests in the source.
The random moves come from the shared oracle `o`, consumed sequentially via
the `moves` counter, so an aborted and an uncancelled run see identical
dynamics.  `stdDev = Math.sqrt(variance)` and the derived error band are
irrational, so the measurement record stores the variance instead.
-/

structure SweepConfig where
  equilibrationSteps : ℕ
  measurementSteps : ℕ
  measurementTrials : ℕ

def chunkSize : ℕ := 2000

def numChunks (eq : ℕ) : ℕ := (eq + chunkSize - 1) / chunkSize

structure SweepState (n : ℕ) where
  model : Ising.IsingModel n
  moves : ℕ

def runSweeps {n : ℕ} (o : ℕ → Fin n × Bool) (nS : ℕ) (st : SweepState n) : SweepState n :=
  { model := Ising.simulationSteps st.model nS (fun i => o (st.moves + i)),
    moves := st.moves + nS * n }

def equilibrationLoop {n : ℕ} (A : ℕ) (o : ℕ → Fin n × Bool) (eq : ℕ) :
    ℕ → ℕ → SweepState n → ℕ → Except Unit (SweepState n × ℕ)
  | 0, _, st, t => .ok (st, t)
  | nc+1, i, st, t =>
      if A ≤ t then .error ()
      else equilibrationLoop A o eq nc (i+1)
        (runSweeps o (min chunkSize (eq - i * chunkSize)) st) (t+1)

def pureEquilibration {n : ℕ} (o : ℕ → Fin n × Bool) (eq : ℕ) :
    ℕ → ℕ → SweepState n → SweepState n
  | 0, _, st => st
  | nc+1, i, st =>
      pureEquilibration o eq nc (i+1) (runSweeps o (min chunkSize (eq - i * chunkSize)) st)

def measurementLoop {n : ℕ} (A : ℕ) (o : ℕ → Fin n × Bool) (ms : ℕ) :
    ℕ → SweepState n → ℕ → List ℚ → List ℚ →
      Except Unit (SweepState n × ℕ × List ℚ × List ℚ)
  | 0, st, t, mags, ens => .ok (st, t, mags, ens)
  | K+1, st, t, mags, ens =>
      let st1 := runSweeps o ms st
      let mags1 := mags ++ [Ising.calculateAbsoluteMagnetization st1.model]
      let ens1 := ens ++ [st1.model.energy / n]
      if A ≤ t then .error ()
      else measurementLoop A o ms K st1 (t+1) mags1 ens1

def pureMeasurement {n : ℕ} (o : ℕ → Fin n × Bool) (ms : ℕ) :
    ℕ → SweepState n → List ℚ → List ℚ → SweepState n × List ℚ × List ℚ
  | 0, st, mags, ens => (st, mags, ens)
  | K+1, st, mags, ens =>
      let st1 := runSweeps o ms st
      pureMeasurement o ms K st1 (mags ++ [Ising.calculateAbsoluteMagnetization st1.model])
        (ens ++ [st1.model.energy / n])

structure MeasureResult where
  mean : ℚ
  variance : ℚ
  energy : Option ℚ
deriving DecidableEq

def meanList (xs : List ℚ) : ℚ := xs.sum / xs.length

def varianceList (xs : List ℚ) : ℚ :=
  ((xs.map (fun v => (v - meanList xs)^2)).sum) / xs.length

def aggregate (mags ens : List ℚ) : MeasureResult :=
  { mean := meanList mags, variance := varianceList mags,
    energy := if ens.isEmpty then none else some (meanList ens) }

def calculateMagnetizationAtTemperature {n : ℕ} (A : ℕ) (o : ℕ → Fin n × Bool)
    (cfg : SweepConfig) (st : SweepState n) (t : ℕ) :
    Except Unit (MeasureResult × SweepState n × ℕ) :=
  match equilibrationLoop A o cfg.equilibrationSteps (numChunks cfg.equilibrationSteps) 0 st t with
  | .error e => .error e
  | .ok (st1, t1) =>
      match measurementLoop A o cfg.measurementSteps cfg.measurementTrials st1 t1 [] [] with
      | .error e => .error e
      | .ok (st2, t2, mags, ens) => .ok (aggregate mags ens, st2, t2)

def pureMeasureAtTemperature {n : ℕ} (o : ℕ → Fin n × Bool) (cfg : SweepConfig)
    (st : SweepState n) : MeasureResult × SweepState n :=
  let st1 := pureEquilibration o cfg.equilibrationSteps (numChunks cfg.equilibrationSteps) 0 st
  let r := pureMeasurement o cfg.measurementSteps cfg.measurementTrials st1 [] []
  (aggregate r.2.1 r.2.2, r.1)

def startCalculationLoop {n : ℕ} (A : ℕ) (o : ℕ → Fin n × Bool) (cfg : SweepConfig) :
    List ℚ → SweepState n → ℕ → List (ℚ × MeasureResult) → List (ℚ × MeasureResult)
  | [], _, _, acc => acc
  | T :: ts, st, t, acc =>
      if A ≤ t then acc
      else
        match calculateMagnetizationAtTemperature A o cfg st (t+1) with
        | .error _ => acc
        | .ok (r, st2, t2) => startCalculationLoop A o cfg ts st2 t2 (acc ++ [(T, r)])

def pureSweep {n : ℕ} (o : ℕ → Fin n × Bool) (cfg : SweepConfig) :
    List ℚ → SweepState n → List (ℚ × MeasureResult)
  | [], _ => []
  | T :: ts, st =>
      let r := pureMeasureAtTemperature o cfg st
      (T, r.1) :: pureSweep o cfg ts r.2

def ticksPerTemp (cfg : SweepConfig) : ℕ :=
  1 + numChunks cfg.equilibrationSteps + cfg.measurementTrials

-- Lemmas
theorem equilibrationLoop_ok {n : ℕ} (A : ℕ) (o : ℕ → Fin n × Bool) (eq : ℕ) :
    ∀ (nc i : ℕ) (st : SweepState n) (t : ℕ), t + nc ≤ A →
      equilibrationLoop A o eq nc i st t = .ok (pureEquilibration o eq nc i st, t + nc) := by
  intro nc
  induction nc with
  | zero => intro i st t _; rfl
  | succ c ih =>
    intro i st t h
    rw [equilibrationLoop, pureEquilibration]
    have hnot : ¬ (A ≤ t) := by omega
    rw [if_neg hnot]
    rw [ih (i+1) _ (t+1) (by omega)]
    rw [show t + 1 + c = t + (c + 1) from by omega]

theorem equilibrationLoop_err {n : ℕ} (A : ℕ) (o : ℕ → Fin n × Bool) (eq : ℕ) :
    ∀ (nc i : ℕ) (st : SweepState n) (t : ℕ), t ≤ A → A < t + nc →
      equilibrationLoop A o eq nc i st t = .error () := by
  intro nc
  induction nc with
  | zero => intro i st t h1 h2; omega
  | succ c ih =>
    intro i st t h1 h2
    rw [equilibrationLoop]
    by_cases ha : A ≤ t
    · rw [if_pos ha]
    · rw [if_neg ha]
      exact ih (i+1) _ (t+1) (by omega) (by omega)

theorem measurementLoop_ok {n : ℕ} (A : ℕ) (o : ℕ → Fin n × Bool) (ms : ℕ) :
    ∀ (K : ℕ) (st : SweepState n) (t : ℕ) (mags ens : List ℚ), t + K ≤ A →
      measurementLoop A o ms K st t mags ens
        = .ok ((pureMeasurement o ms K st mags ens).1, t + K,
            (pureMeasurement o ms K st mags ens).2.1,
            (pureMeasurement o ms K st mags ens).2.2) := by
  intro K
  induction K with
  | zero => intro st t mags ens _; rfl
  | succ c ih =>
    intro st t mags ens h
    rw [measurementLoop, pureMeasurement]
    have hnot : ¬ (A ≤ t) := by omega
    rw [if_neg hnot]
    rw [ih _ (t+1) _ _ (by omega)]
    rw [show t + 1 + c = t + (c + 1) from by omega]

theorem measurementLoop_err {n : ℕ} (A : ℕ) (o : ℕ → Fin n × Bool) (ms : ℕ) :
    ∀ (K : ℕ) (st : SweepState n) (t : ℕ) (mags ens : List ℚ), t ≤ A → A < t + K →
      measurementLoop A o ms K st t mags ens = .error () := by
  intro K
  induction K with
  | zero => intro st t mags ens h1 h2; omega
  | succ c ih =>
    intro st t mags ens h1 h2
    rw [measurementLoop]
    by_cases ha : A ≤ t
    · rw [if_pos ha]
    · rw [if_neg ha]
      exact ih _ (t+1) _ _ (by omega) (by omega)

theorem calculateMagnetizationAtTemperature_ok {n : ℕ} (A : ℕ) (o : ℕ → Fin n × Bool)
    (cfg : SweepConfig) (st : SweepState n) (t : ℕ)
    (h : t + (numChunks cfg.equilibrationSteps + cfg.measurementTrials) ≤ A) :
    calculateMagnetizationAtTemperature A o cfg st t
      = .ok ((pureMeasureAtTemperature o cfg st).1, (pureMeasureAtTemperature o cfg st).2,
          t + (numChunks cfg.equilibrationSteps + cfg.measurementTrials)) := by
  rw [calculateMagnetizationAtTemperature]
  rw [equilibrationLoop_ok A o cfg.equilibrationSteps (numChunks cfg.equilibrationSteps) 0 st t
    (by omega)]
  dsimp only
  rw [measurementLoop_ok A o cfg.measurementSteps cfg.measurementTrials _
    (t + numChunks cfg.equilibrationSteps) [] [] (by omega)]
  dsimp only
  rw [pureMeasureAtTemperature]
  rw [show t + numChunks cfg.equilibrationSteps + cfg.measurementTrials
      = t + (numChunks cfg.equilibrationSteps + cfg.measurementTrials) from by omega]

theorem calculateMagnetizationAtTemperature_err {n : ℕ} (A : ℕ) (o : ℕ → Fin n × Bool)
    (cfg : SweepConfig) (st : SweepState n) (t : ℕ) (h1 : t ≤ A)
    (h2 : A < t + (numChunks cfg.equilibrationSteps + cfg.measurementTrials)) :
    calculateMagnetizationAtTemperature A o cfg st t = .error () := by
  rw [calculateMagnetizationAtTemperature]
  by_cases heq : A < t + numChunks cfg.equilibrationSteps
  · rw [equilibrationLoop_err A o cfg.equilibrationSteps (numChunks cfg.equilibrationSteps) 0 st t
      h1 heq]
  · push_neg at heq
    rw [equilibrationLoop_ok A o cfg.equilibrationSteps (numChunks cfg.equilibrationSteps) 0 st t
      heq]
    dsimp only
    rw [measurementLoop_err A o cfg.measurementSteps cfg.measurementTrials _
      (t + numChunks cfg.equilibrationSteps) [] [] heq (by omega)]

theorem startCalculationLoop_prefix {n : ℕ} (A : ℕ) (o : ℕ → Fin n × Bool)
    (cfg : SweepConfig) :
    ∀ (k : ℕ) (temps : List ℚ) (st : SweepState n) (t : ℕ)
      (acc : List (ℚ × MeasureResult)),
      1 ≤ k → k ≤ temps.length →
      (k - 1) * ticksPerTemp cfg + t < A → A < k * ticksPerTemp cfg + t →
      startCalculationLoop A o cfg temps st t acc
        = acc ++ pureSweep o cfg (temps.take (k - 1)) st := by
  intro k
  induction k with
  | zero => intro temps st t acc h1; omega
  | succ k' ih =>
    intro temps st t acc _ hlen h1 h2
    cases temps with
    | nil => simp at hlen
    | cons T ts =>
      have hc : ticksPerTemp cfg
          = 1 + numChunks cfg.equilibrationSteps + cfg.measurementTrials := rfl
      rw [Nat.add_sub_cancel] at h1
      rw [Nat.add_sub_cancel]
      have hT : ¬ (A ≤ t) := by
        have := Nat.le_add_left t (k' * ticksPerTemp cfg)
        omega
      rw [startCalculationLoop, if_neg hT]
      cases k' with
      | zero =>
        rw [calculateMagnetizationAtTemperature_err A o cfg st (t+1)
          (by omega)
          (by
            have h2x : A < ticksPerTemp cfg + t := by
              have h2y := h2
              simp only [Nat.zero_add, one_mul] at h2y
              exact h2y
            rw [hc] at h2x
            omega)]
        simp [pureSweep]
      | succ k'' =>
        have hmul1 : (k'' + 1) * ticksPerTemp cfg
            = k'' * ticksPerTemp cfg + ticksPerTemp cfg := by ring
        have hmul2 : (k'' + 1 + 1) * ticksPerTemp cfg
            = k'' * ticksPerTemp cfg + ticksPerTemp cfg + ticksPerTemp cfg := by ring
        rw [hmul1] at h1
        rw [hmul2] at h2
        have hcomplete : (t + 1)
            + (numChunks cfg.equilibrationSteps + cfg.measurementTrials) ≤ A := by
          have h1x := h1
          rw [hc] at h1x
          omega
        rw [calculateMagnetizationAtTemperature_ok A o cfg st (t+1) hcomplete]
        dsimp only
        rw [List.take_succ_cons, pureSweep]
        have hh1 : (k'' + 1 - 1) * ticksPerTemp cfg
            + ((t + 1) + (numChunks cfg.equilibrationSteps + cfg.measurementTrials)) < A := by
          rw [Nat.add_sub_cancel]
          have h1x := h1
          rw [hc] at h1x
          rw [hc]
          omega
        have hh2 : A < (k'' + 1) * ticksPerTemp cfg
            + ((t + 1) + (numChunks cfg.equilibrationSteps + cfg.measurementTrials)) := by
          rw [hmul1]
          have h2x := h2
          rw [hc] at h2x
          rw [hc]
          omega
        rw [ih ts (pureMeasureAtTemperature o cfg st).2
          ((t + 1) + (numChunks cfg.equilibrationSteps + cfg.measurementTrials))
          (acc ++ [(T, (pureMeasureAtTemperature o cfg st).1)])
          (by omega) (by simpa using hlen) hh1 hh2]
        rw [Nat.add_sub_cancel]
        simp [List.append_assoc]

theorem pureSweep_length {n : ℕ} (o : ℕ → Fin n × Bool) (cfg : SweepConfig) :
    ∀ (ts : List ℚ) (st : SweepState n), (pureSweep o cfg ts st).length = ts.length := by
  intro ts
  induction ts with
  | nil => intro st; rfl
  | cons T ts ih =>
    intro st
    rw [pureSweep]
    simp only [List.length_cons, ih]

/-- **C5** (confirmed).  If the cancellation flag is raised while the `k`-th
temperature point is in flight (after its loop-head check passes and before
its last trial check, i.e. `(k-1)*ticksPerTemp < A < k*ticksPerTemp`), the
sweep returns exactly the measurements of the first `k-1` temperatures — the
same records an uncancelled run would produce on that prefix — of length
`k-1`, and no partial measurement for the in-flight temperature is added. -/
theorem C5_cancellation_atomicity {n : ℕ} (A : ℕ) (o : ℕ → Fin n × Bool) (cfg : SweepConfig)
    (temps : List ℚ) (st : SweepState n) (k : ℕ)
    (hk1 : 1 ≤ k) (hk2 : k ≤ temps.length)
    (h1 : (k - 1) * ticksPerTemp cfg < A) (h2 : A < k * ticksPerTemp cfg) :
    startCalculationLoop A o cfg temps st 0 []
      = pureSweep o cfg (temps.take (k - 1)) st
    ∧ (startCalculationLoop A o cfg temps st 0 []).length = k - 1 := by
  have h := startCalculationLoop_prefix A o cfg k temps st 0 [] hk1 hk2
    (by omega) (by omega)
  rw [List.nil_append] at h
  refine ⟨h, ?_⟩
  rw [h, pureSweep_length, List.length_take]
  omega

/-- 1-node sweep state for the C5 witness. -/
def c5state : SweepState 1 := ⟨⟨fun _ _ => 0, -1, fun _ => 1, 0⟩, 0⟩

/-- Witness sweep configuration: 1 equilibration sweep (1 chunk), 1
measurement sweep, 1 trial, so 3 abort checks per temperature. -/
def c5cfg : SweepConfig := ⟨1, 1, 1⟩

/-- Witness for C5: two temperatures, abort threshold 4 falls inside the
second point's processing (3 < 4 < 6), so exactly the first measurement is
returned. -/
theorem C5_cancellation_atomicity_witness :
    startCalculationLoop 4 (fun _ => (0, false)) c5cfg [2, 1] c5state 0 []
      = pureSweep (fun _ => (0, false)) c5cfg ([2, 1].take (2 - 1)) c5state
    ∧ (startCalculationLoop 4 (fun _ => (0, false)) c5cfg [2, 1] c5state 0 []).length = 2 - 1 :=
  C5_cancellation_atomicity 4 (fun _ => (0, false)) c5cfg [2, 1] c5state 2
    (by norm_num) (by norm_num) (by decide) (by decide)
